import Mathlib

/-!
Verification of the go-treestore-cmdline command server against its
natural-language specification.  Go byte slices and Go strings are both
shallowly embedded as `List Nat` (Go indexes strings by byte); store
names and file names, which are plain ASCII text, are embedded as Lean
`String`/`List Char` where character-level operations are involved.
-/

/-- Go byte slices and byte-indexed Go strings. -/
abbrev Bytes := List Nat

/-! ## Escape codec (src/cmd-handlers.go: bytesToEscapedValue, valueEscape, valueUnescape) -/

/-- One hex digit of `fmt.Sprintf "%02X"`: uppercase hex character code of a nibble. -/
def upHexDigit (d : Nat) : Nat :=
  if d < 10 then 48 + d else 55 + d

/-- The bytes emitted for one input byte by the loop body of
`bytesToEscapedValue`: the Go condition `by < 32 || by == '\\' || by > 127`
selects escaping as `\HH` (0x5C = 92 is the backslash). -/
def escapeByteGo (b : Nat) : Bytes :=
  if b < 32 ∨ b = 92 ∨ b > 127 then [92, upHexDigit (b / 16), upHexDigit (b % 16)]
  else [b]

/-- The `strings.Builder` loop of `bytesToEscapedValue`: `acc` is the builder
content, each byte appends either `\HH` or itself. -/
def valueEscapeLoop (acc : Bytes) : Bytes → Bytes
  | [] => acc
  | b :: rest => valueEscapeLoop (acc ++ escapeByteGo b) rest

/-- The escaping applied by `bytesToEscapedValue` to a non-nil byte slice. -/
def valueEscapeBytes (v : Bytes) : Bytes :=
  valueEscapeLoop [] v

/-- `bytesToEscapedValue` itself: a nil slice (modelled `none`) returns Go `nil`
(modelled `none`); otherwise the escaped string.  Note the source returns the
untyped `nil` interface value for nil input, not an empty string. -/
def bytesToEscapedValue : Option Bytes → Option Bytes
  | none => none
  | some v => some (valueEscapeBytes v)

/-- `encoding/hex` digit decoding (fromHexChar): accepts `0-9`, `a-f`, `A-F`. -/
def hexCharVal (c : Nat) : Option Nat :=
  if 48 ≤ c ∧ c ≤ 57 then some (c - 48)
  else if 97 ≤ c ∧ c ≤ 102 then some (c - 97 + 10)
  else if 65 ≤ c ∧ c ≤ 70 then some (c - 65 + 10)
  else none

/-- `hex.DecodeString` on a two-character string, yielding the single byte. -/
def hexPairVal (h1 h2 : Nat) : Option Nat :=
  match hexCharVal h1, hexCharVal h2 with
  | some a, some b => some (16 * a + b)
  | _, _ => none

/-- `valueUnescape` (src/cmd-handlers.go).  The Go loop guard
`by == '\\' && pos+2 < len(v)` requires two more characters after the
backslash; on a valid hex pair it decodes one byte and skips three
characters, otherwise it keeps the current byte and advances one. -/
def valueUnescape : Bytes → Bytes
  | [] => []
  | [c] => [c]
  | [c1, c2] => [c1, c2]
  | c :: h1 :: h2 :: rest =>
    if c = 92 then
      match hexPairVal h1 h2 with
      | some d => d :: valueUnescape rest
      | none => c :: valueUnescape (h1 :: h2 :: rest)
    else c :: valueUnescape (h1 :: h2 :: rest)

theorem valueEscapeLoop_acc (v : Bytes) : ∀ acc : Bytes,
    valueEscapeLoop acc v = acc ++ valueEscapeLoop [] v := by
  induction v with
  | nil => intro acc; simp [valueEscapeLoop]
  | cons b rest ih =>
    intro acc
    rw [valueEscapeLoop, valueEscapeLoop, ih (acc ++ escapeByteGo b),
      ih (([] : Bytes) ++ escapeByteGo b)]
    simp

theorem valueEscapeBytes_cons (b : Nat) (rest : Bytes) :
    valueEscapeBytes (b :: rest) = escapeByteGo b ++ valueEscapeBytes rest := by
  unfold valueEscapeBytes
  rw [valueEscapeLoop, valueEscapeLoop_acc]
  simp

theorem valueUnescape_cons_of_ne (c : Nat) (l : Bytes) (h : c ≠ 92) :
    valueUnescape (c :: l) = c :: valueUnescape l := by
  match l with
  | [] => simp [valueUnescape]
  | [a] => simp [valueUnescape]
  | a :: b :: t => simp [valueUnescape, h]

theorem valueUnescape_escape_pair (h1 h2 d : Nat) (rest : Bytes)
    (h : hexPairVal h1 h2 = some d) :
    valueUnescape (92 :: h1 :: h2 :: rest) = d :: valueUnescape rest := by
  simp [valueUnescape, h]

theorem hexCharVal_upHexDigit (d : Nat) (h : d < 16) :
    hexCharVal (upHexDigit d) = some d := by
  revert h; revert d; decide

theorem hexPairVal_upHexDigit (b : Nat) (h : b < 256) :
    hexPairVal (upHexDigit (b / 16)) (upHexDigit (b % 16)) = some b := by
  have h1 : b / 16 < 16 := by omega
  have h2 : b % 16 < 16 := Nat.mod_lt _ (by omega)
  rw [hexPairVal, hexCharVal_upHexDigit _ h1, hexCharVal_upHexDigit _ h2]
  have := Nat.div_add_mod b 16
  simp only [Option.some.injEq]
  omega

/-- C1: value-unescape inverts value-escape on every byte array: each escaped
byte `\HH` (backslash then two uppercase hex digits) decodes back to the byte,
and every pass-through byte (printable, not a backslash) is kept verbatim
because only a backslash triggers decoding and escape leaves no bare
backslash in its output. -/
theorem escape_roundtrip (B : Bytes) (h : ∀ b ∈ B, b < 256) :
    valueUnescape (valueEscapeBytes B) = B := by
  induction B with
  | nil => rfl
  | cons b rest ih =>
    have hb : b < 256 := h b (List.mem_cons_self b rest)
    have hrest : ∀ x ∈ rest, x < 256 := fun x hx => h x (List.mem_cons_of_mem b hx)
    rw [valueEscapeBytes_cons]
    by_cases hc : b < 32 ∨ b = 92 ∨ b > 127
    · rw [escapeByteGo, if_pos hc]
      simp only [List.cons_append, List.nil_append]
      rw [valueUnescape_escape_pair _ _ _ _ (hexPairVal_upHexDigit b hb), ih hrest]
    · rw [escapeByteGo, if_neg hc]
      push_neg at hc
      have : b ≠ 92 := hc.2.1
      rw [List.cons_append, List.nil_append, valueUnescape_cons_of_ne _ _ this, ih hrest]

/-- C1 witness: the round trip evaluated at the concrete byte array
`[0, 92, 200, 65, 10]`. -/
theorem escape_roundtrip_witness :
    (∀ b ∈ ([0, 92, 200, 65, 10] : Bytes), b < 256) ∧
      valueUnescape (valueEscapeBytes [0, 92, 200, 65, 10]) = [0, 92, 200, 65, 10] :=
  ⟨by decide, escape_roundtrip [0, 92, 200, 65, 10] (by decide)⟩

/-! ## C8: characterization of value-escape -/

/-- Written from the spec's words for C8: a byte `< 0x20`, `> 0x7F`, or equal
to `0x5C` becomes backslash plus two uppercase hex digits; any other byte
passes through unchanged. -/
def escapeByteSpec (b : Nat) : Bytes :=
  if b < 0x20 ∨ b > 0x7F ∨ b = 0x5C then [0x5C, upHexDigit (b / 16), upHexDigit (b % 16)]
  else [b]

/-- C8 counterexample: on nil input `bytesToEscapedValue` returns Go `nil`
(serialized as JSON null), not empty text, refuting the claim that a nil
input yields empty text. -/
theorem bytesToEscapedValue_nil_not_empty_text :
    ¬ bytesToEscapedValue none = some ([] : Bytes) := by
  decide

/-- C8 (amended): a non-nil byte array is escaped exactly per byte — bytes
`< 0x20`, `> 0x7F`, or `= 0x5C` become backslash plus two uppercase hex
digits and all other bytes pass through — with an empty input giving empty
text; but a nil input returns Go `nil` (JSON null), not empty text. -/
theorem bytesToEscapedValue_spec (v : Bytes) :
    bytesToEscapedValue (some v) = some (v.flatMap escapeByteSpec) ∧
      bytesToEscapedValue (some []) = some ([] : Bytes) ∧
      bytesToEscapedValue none = none := by
  refine ⟨?_, rfl, rfl⟩
  simp only [bytesToEscapedValue, Option.some.injEq]
  induction v with
  | nil => rfl
  | cons b rest ih =>
    rw [valueEscapeBytes_cons, List.flatMap_cons, ih]
    have : escapeByteGo b = escapeByteSpec b := by
      unfold escapeByteGo escapeByteSpec
      by_cases h1 : b < 32 ∨ b = 92 ∨ b > 127
      · rw [if_pos h1, if_pos (by omega)]
      · rw [if_neg h1, if_neg (by omega)]
    rw [this]

/-! ## Raw requests (src/clientCxn.go parseCommand, src/cmdline.go Dispatch) -/

/-- The two parallel views of a request (src/treestoreClient.go).  Go strings
are byte sequences, so `args` is also a list of byte lists. -/
structure rawRequest where
  exact : List Bytes
  args : List Bytes
deriving DecidableEq

theorem valueUnescape_of_no_backslash (l : Bytes) (h : 92 ∉ l) : valueUnescape l = l := by
  induction l with
  | nil => rfl
  | cons c t ih =>
    have hc : c ≠ 92 := fun he => h (by simp [he])
    rw [valueUnescape_cons_of_ne c t hc, ih (fun ht => h (List.mem_cons_of_mem _ ht))]

/-- Per-argument `exact` entry: Go passes the bytes through when they contain
no backslash (`bytes.Contains`), else runs `valueUnescape`. -/
def argExact (a : Bytes) : Bytes :=
  if 92 ∈ a then valueUnescape a else a

/-- The view-building loop of `parseCommand` (src/clientCxn.go): starting from
empty slices, each escaped argument is appended to `args` and its exact form
to `exact`. -/
def parseCommandViews (escapedArgs : List Bytes) : rawRequest :=
  { exact := escapedArgs.map argExact, args := escapedArgs }

/-- The view-building code of the embedded-mode `Dispatch` (src/cmdline.go):
`req.exact` is initialized to the full `escapedArgs` slice and the loop then
appends one entry per argument to it. -/
def dispatchRequest (escapedArgs : List Bytes) : rawRequest :=
  { exact := escapedArgs ++ escapedArgs.map argExact, args := escapedArgs }

/-- C3: the connection frame parser keeps `len(exact) == len(args)` with
`exact[i]` the value-unescape of `args[i]`; but the embedded-mode `Dispatch`
initializes `exact` with the argument slice itself before appending, so for
the two-argument request `["gk", "\41"]` it produces four `exact` entries
against two `args` entries, violating the claimed invariant. -/
theorem dispatch_exact_args_mismatch :
    (∀ escapedArgs : List Bytes,
        (parseCommandViews escapedArgs).exact.length =
          (parseCommandViews escapedArgs).args.length ∧
        (parseCommandViews escapedArgs).exact =
          (parseCommandViews escapedArgs).args.map valueUnescape) ∧
      (dispatchRequest [[103, 107], [92, 52, 49]]).exact.length = 4 ∧
      (dispatchRequest [[103, 107], [92, 52, 49]]).args.length = 2 := by
  refine ⟨fun escapedArgs => ⟨by simp [parseCommandViews], ?_⟩, by decide, by decide⟩
  simp only [parseCommandViews]
  apply List.map_congr_left
  intro a _
  unfold argExact
  by_cases h : 92 ∈ a
  · rw [if_pos h]
  · rw [if_neg h, valueUnescape_of_no_backslash a h]

/-! ## Connection frame reading (src/clientCxn.go: onWaitForCommand, parseCommand) -/

/-- `binary.BigEndian.Uint32` of four bytes. -/
def be32 (a b c d : Nat) : Nat :=
  ((a * 256 + b) * 256 + c) * 256 + d

/-- `binary.BigEndian.PutUint32`: the four big-endian bytes of a `uint32`. -/
def encBE32 (n : Nat) : Bytes :=
  [n / 2 ^ 24 % 256, n / 2 ^ 16 % 256, n / 2 ^ 8 % 256, n % 256]

/-- A wire frame: 4-byte big-endian length, then the payload. -/
def encFrame (payload : Bytes) : Bytes :=
  encBE32 payload.length ++ payload

/-- `bytes.Split(packet, []byte("\n"))`: split on the byte 10; an empty
packet yields one empty token, as in Go. -/
def splitOnNL : Bytes → List Bytes
  | [] => [[]]
  | b :: rest =>
    if b = 10 then [] :: splitOnNL rest
    else
      match splitOnNL rest with
      | g :: gs => (b :: g) :: gs
      | [] => [[b]]

/-- `parseCommand` (src/clientCxn.go): `none` models the Go `length == 0`
"incomplete" result (fewer than 4 bytes, or fewer than `packetSize` payload
bytes); otherwise the parsed request and the consumed byte count
`4 + packetSize`.  The Go `length < 0` branch of the caller is unreachable:
`parseCommand` only returns 0 or `4 + packetSize`. -/
def parseCommand (inbound : Bytes) : Option (rawRequest × Nat) :=
  match inbound with
  | a :: b :: c :: d :: rest =>
    let packetSize := be32 a b c d
    if rest.length < packetSize then none
    else some (parseCommandViews (splitOnNL (rest.take packetSize)), 4 + packetSize)
  | _ => none

/-- Events a connection queues on its state channel (src/clientCxn.go). -/
inductive CxnEvent
  | waitForCommand
  | dispatchCommand (req : rawRequest)
  | terminate
deriving DecidableEq

/-- Outcome of the blocking socket read in `onWaitForCommand`. -/
inductive ReadOutcome
  | bytes (bs : Bytes)
  | readErr
deriving DecidableEq

/-- `onWaitForCommand` (src/clientCxn.go): on read error (including EOF)
queue Terminate; otherwise append the read bytes to the inbound buffer, try
`parseCommand` once, and either queue WaitForCommand (incomplete) or consume
one frame and queue a single DispatchCommand. -/
def onWaitForCommand (inbound : Bytes) (r : ReadOutcome) : Bytes × List CxnEvent :=
  match r with
  | .readErr => (inbound, [.terminate])
  | .bytes bs =>
    let inb := inbound ++ bs
    match parseCommand inb with
    | none => (inb, [.waitForCommand])
    | some (cmd, length) => (inb.drop length, [.dispatchCommand cmd])

/-- Number of complete frames at the head of a buffer (spec-side notion used
to state C9), computed by iterating `parseCommand`. -/
def completeFramesAux : Nat → Bytes → Nat
  | 0, _ => 0
  | fuel + 1, buf =>
    match parseCommand buf with
    | none => 0
    | some (_, len) => 1 + completeFramesAux fuel (buf.drop len)

def completeFrames (buf : Bytes) : Nat :=
  completeFramesAux buf.length buf

/-- C9 counterexample: a single read delivering the two complete frames
`"a"` and `"b"` produces exactly one DispatchCommand event (for the first
frame only), refuting the claim that one event is emitted per complete
frame in the buffer; the second frame stays buffered. -/
theorem onWaitForCommand_two_frames_one_dispatch :
    completeFrames (encFrame [97] ++ encFrame [98]) = 2 ∧
      (onWaitForCommand [] (.bytes (encFrame [97] ++ encFrame [98]))).2 =
        [CxnEvent.dispatchCommand ⟨[[97]], [[97]]⟩] ∧
      (onWaitForCommand [] (.bytes (encFrame [97] ++ encFrame [98]))).1 =
        encFrame [98] := by
  decide

theorem parseCommand_short (l : Bytes) (h : l.length < 4) : parseCommand l = none := by
  match l with
  | [] => rfl
  | [_] => rfl
  | [_, _] => rfl
  | [_, _, _] => rfl
  | _ :: _ :: _ :: _ :: _ => simp at h; omega

theorem be32_encBE32 (n : Nat) (h : n < 2 ^ 32) :
    be32 (n / 2 ^ 24 % 256) (n / 2 ^ 16 % 256) (n / 2 ^ 8 % 256) (n % 256) = n := by
  unfold be32
  omega

theorem onWaitForCommand_bytes_eq (inbound bs : Bytes) :
    onWaitForCommand inbound (.bytes bs) =
      match parseCommand (inbound ++ bs) with
      | none => (inbound ++ bs, [CxnEvent.waitForCommand])
      | some (cmd, length) => ((inbound ++ bs).drop length, [CxnEvent.dispatchCommand cmd]) :=
  rfl

theorem parseCommand_frame (payload rest : Bytes) (h : payload.length < 2 ^ 32) :
    parseCommand (encFrame payload ++ rest) =
      some (parseCommandViews (splitOnNL payload), 4 + payload.length) := by
  have hshape : encFrame payload ++ rest =
      payload.length / 2 ^ 24 % 256 :: payload.length / 2 ^ 16 % 256 ::
        payload.length / 2 ^ 8 % 256 :: payload.length % 256 :: (payload ++ rest) := by
    simp [encFrame, encBE32]
  rw [hshape]
  simp only [parseCommand]
  rw [be32_encBE32 _ h]
  have hlen : ¬ (payload ++ rest).length < payload.length := by simp
  rw [if_neg hlen, List.take_left]

/-- C9 (amended): after a socket read, the connection emits one
DispatchCommand event for the FIRST complete frame in the buffer, leaving
any further complete frames buffered for later reads; any buffer without a
complete frame — whether it is shorter than the 4-byte header, or carries a
complete header whose payload has not fully arrived — keeps its bytes and
queues WaitForCommand again; a read error or EOF queues Terminate. -/
theorem onWaitForCommand_spec :
    (∀ payload rest : Bytes, payload.length < 2 ^ 32 →
        onWaitForCommand [] (.bytes (encFrame payload ++ rest)) =
          (rest, [CxnEvent.dispatchCommand (parseCommandViews (splitOnNL payload))])) ∧
      (∀ inbound bs : Bytes, parseCommand (inbound ++ bs) = none →
        onWaitForCommand inbound (.bytes bs) = (inbound ++ bs, [CxnEvent.waitForCommand])) ∧
      (∀ buf : Bytes, buf.length < 4 → parseCommand buf = none) ∧
      (∀ (n : Nat) (payloadSoFar : Bytes), n < 2 ^ 32 → payloadSoFar.length < n →
        parseCommand (encBE32 n ++ payloadSoFar) = none) ∧
      (∀ inbound : Bytes, onWaitForCommand inbound .readErr = (inbound, [CxnEvent.terminate])) := by
  refine ⟨?_, ?_, fun buf h => parseCommand_short buf h, ?_, fun inbound => rfl⟩
  · intro payload rest h
    rw [onWaitForCommand_bytes_eq, List.nil_append, parseCommand_frame payload rest h]
    have hdrop : (encFrame payload ++ rest).drop (4 + payload.length) = rest := by
      rw [show 4 + payload.length = (encFrame payload).length by simp [encFrame, encBE32]; omega,
        List.drop_left]
    simp [hdrop]
  · intro inbound bs h
    rw [onWaitForCommand_bytes_eq, h]
  · intro n payloadSoFar hn hp
    have hshape : encBE32 n ++ payloadSoFar =
        n / 2 ^ 24 % 256 :: n / 2 ^ 16 % 256 :: n / 2 ^ 8 % 256 :: n % 256 :: payloadSoFar := by
      simp [encBE32]
    rw [hshape]
    simp only [parseCommand]
    rw [be32_encBE32 _ hn, if_pos hp]

/-- C9 witness: the amended behaviour evaluated at a concrete complete frame
(payload `"hi"`, empty remainder), at the partial frame `[0,0,0,5,1,2]`
(complete header announcing 5 payload bytes of which only 2 arrived), at a
buffer shorter than a header, and at a read error. -/
theorem onWaitForCommand_spec_witness :
    onWaitForCommand [] (.bytes (encFrame [104, 105] ++ [])) =
        ([], [CxnEvent.dispatchCommand (parseCommandViews (splitOnNL [104, 105]))]) ∧
      onWaitForCommand [0, 0, 0, 5] (.bytes [1, 2]) =
        ([0, 0, 0, 5, 1, 2], [CxnEvent.waitForCommand]) ∧
      parseCommand [0, 0, 0] = none ∧
      parseCommand (encBE32 5 ++ [1, 2]) = none ∧
      onWaitForCommand [7] .readErr = ([7], [CxnEvent.terminate]) :=
  ⟨onWaitForCommand_spec.1 [104, 105] [] (by decide),
   onWaitForCommand_spec.2.1 [0, 0, 0, 5] [1, 2] (by decide),
   onWaitForCommand_spec.2.2.1 [0, 0, 0] (by decide),
   onWaitForCommand_spec.2.2.2.1 5 [1, 2] (by decide) (by decide),
   onWaitForCommand_spec.2.2.2.2 [7]⟩

/-! ## Response values and JSON encoding (src/cmd-handlers.go dispatchHandler) -/

/-- The value kinds handlers place into the `map[string]any` response. -/
inductive RVal
  | strVal (v : String)
  | bytesVal (v : Bytes)
  | natVal (v : Nat)
  | intVal (v : Int)
  | boolVal (v : Bool)
  | nullVal
  | listVal (v : List RVal)
  | pairsVal (v : List (String × Bytes))

/-- A handler response map, in insertion order. -/
abbrev RespMap := List (String × RVal)

/-- Byte view of an ASCII Lean string. -/
def strBytes (s : String) : Bytes :=
  s.toList.map Char.toNat

def encodePair (p : String × Bytes) : Bytes :=
  34 :: strBytes p.1 ++ [34, 58, 34] ++ p.2 ++ [34]

def encodePairs : List (String × Bytes) → Bytes
  | [] => []
  | [p] => encodePair p
  | p :: ps => encodePair p ++ 44 :: encodePairs ps

mutual

/-- JSON encoding of one response value (string escaping elided: the modelled
responses carry already-escaped text).  `json.Encoder` cannot fail on these
value kinds, which is why the Go `err` ends up nil after encoding. -/
def encodeRVal : RVal → Bytes
  | .strVal v => 34 :: strBytes v ++ [34]
  | .bytesVal v => 34 :: v ++ [34]
  | .natVal n => strBytes (toString n)
  | .intVal n => strBytes (toString n)
  | .boolVal b => strBytes (toString b)
  | .nullVal => strBytes "null"
  | .listVal l => 91 :: encodeRValList l ++ [93]
  | .pairsVal v => 123 :: encodePairs v ++ [125]

def encodeRValList : List RVal → Bytes
  | [] => []
  | [x] => encodeRVal x
  | x :: xs => encodeRVal x ++ 44 :: encodeRValList xs

end

def encodeField (f : String × RVal) : Bytes :=
  34 :: strBytes f.1 ++ [34, 58] ++ encodeRVal f.2

def encodeFields : RespMap → Bytes
  | [] => []
  | [f] => encodeField f
  | f :: fs => encodeField f ++ 44 :: encodeFields fs

/-- The JSON object written for a response map (`enc.Encode` with HTML escape
off, trailing newline trimmed): `\x7b fields \x7d`. -/
def encodeResponse (m : RespMap) : Bytes :=
  123 :: encodeFields m ++ [125]

/-! ## Dispatcher (src/cmd-handlers.go dispatchHandler, src/clientCxn.go onDispatchCommand) -/

/-- The op-log sink contract (src/cmd-handlers.go OpLogHandler). -/
structure OpLogM where
  logRequest : Nat → Bool → List Bytes → Option String
  logResult : Nat → Bool → Bytes → Option String

/-- `dispatchHandler` after the request number is taken: `processResult`
abstracts `cmdLine.ProcessWithContext` together with the handler (an `error`
makes the code place `\x7berror: msg\x7d` into the response map while `err`
is still non-nil); encoding then reassigns `err`, which is nil because
encoding these maps cannot fail; with an op-log sink attached, a
`OpLogResult` failure is the only remaining error source.  The
`OpLogRequest` error is discarded by the source. -/
def dispatchHandler (opLog : Option OpLogM) (reqNumber : Nat) (modify : Bool)
    (processResult : Except String RespMap) : Bytes × Option String :=
  let response : RespMap :=
    match processResult with
    | .error e => [("error", RVal.strVal e)]
    | .ok kvs => kvs
  let out := encodeResponse response
  match opLog with
  | some lg =>
    match lg.logResult reqNumber modify out with
    | some e => (out, some e)
    | none => (out, none)
  | none => (out, none)

/-- What the `onDispatchCommand` worker does with the connection. -/
inductive CxnAction
  | closeSocket
  | writeAndRequeueWait
deriving DecidableEq

/-- `onDispatchCommand` (src/clientCxn.go): a dispatch error closes the
socket; otherwise the response is written and, if the write succeeds,
WaitForCommand is requeued; a failed write closes the socket. -/
def onDispatchCommand (dispatchErr : Option String) (writeOk : Bool) : CxnAction :=
  match dispatchErr with
  | some _ => .closeSocket
  | none => if writeOk then .writeAndRequeueWait else .closeSocket

/-- C4: an argv parse failure makes the dispatcher return the successfully
encoded object with the single field `error` and a nil error (the parse
error assigned to `err` is overwritten by the successful encode), so the
connection worker writes the reply and requeues WaitForCommand instead of
closing the socket. -/
theorem parse_error_keeps_connection_open (msg : String) (reqNumber : Nat) (modify : Bool) :
    dispatchHandler none reqNumber modify (.error msg) =
        (encodeResponse [("error", RVal.strVal msg)], none) ∧
      onDispatchCommand (dispatchHandler none reqNumber modify (.error msg)).2 true =
        .writeAndRequeueWait :=
  ⟨rfl, rfl⟩

/-! ## Request numbers (src/cmd-handlers.go dispatchHandler, lines 1422-1429) -/

/-- One allocation under `reqMu`: seed with the current time, bump to
`previous + 1` when not already greater.  The counter is a `uint64`, so the
bump wraps at `2 ^ 64`. -/
def nextReqNumber (prev now : Nat) : Nat :=
  if now ≤ prev then (prev + 1) % 2 ^ 64 else now

/-- The numbers emitted by a sequence of dispatches whose (arbitrary,
possibly non-monotone) clock readings are `nows`. -/
def allocReqNumbers (prev : Nat) : List Nat → List Nat
  | [] => []
  | now :: rest =>
    let r := nextReqNumber prev now
    r :: allocReqNumbers r rest

theorem allocReqNumbers_chain (nows : List Nat) : ∀ prev : Nat,
    (∀ n ∈ nows, n + nows.length < 2 ^ 64) → prev + nows.length < 2 ^ 64 →
    List.Chain' (· < ·) (prev :: allocReqNumbers prev nows) := by
  induction nows with
  | nil => intro prev _ _; simp [allocReqNumbers]
  | cons now rest ih =>
    intro prev h1 h2
    simp only [allocReqNumbers, List.chain'_cons]
    have hnow : now + (rest.length + 1) < 2 ^ 64 := by
      have := h1 now (List.mem_cons_self now rest)
      simpa using this
    have hprev : prev + (rest.length + 1) < 2 ^ 64 := by simpa using h2
    have hrest1 : ∀ n ∈ rest, n + rest.length < 2 ^ 64 := by
      intro n hn
      have := h1 n (List.mem_cons_of_mem now hn)
      simp at this
      omega
    constructor
    · unfold nextReqNumber
      by_cases hc : now ≤ prev
      · rw [if_pos hc, Nat.mod_eq_of_lt (by omega)]
        omega
      · rw [if_neg hc]
        omega
    · apply ih
      · exact hrest1
      · unfold nextReqNumber
        by_cases hc : now ≤ prev
        · rw [if_pos hc, Nat.mod_eq_of_lt (by omega)]
          omega
        · rw [if_neg hc]
          omega

/-- C5: the request numbers emitted across any interleaving of dispatches
(the lock linearizes allocations; clock readings happen outside the lock
and may arrive in any order) are pairwise strictly increasing, provided the
trace stays below the `uint64` wrap point. -/
theorem request_numbers_strictly_increase (nows : List Nat)
    (h1 : ∀ n ∈ nows, n + nows.length < 2 ^ 64) (h2 : nows.length < 2 ^ 64) :
    List.Pairwise (· < ·) (allocReqNumbers 0 nows) := by
  have hchain := allocReqNumbers_chain nows 0 h1 (by omega)
  have := List.chain'_iff_pairwise.mp hchain
  exact (List.pairwise_cons.mp this).2

/-- C5 witness: the allocations for clock readings `[5, 3, 2]` are
`[5, 6, 7]`, pairwise increasing. -/
theorem request_numbers_strictly_increase_witness :
    (∀ n ∈ ([5, 3, 2] : List Nat), n + 3 < 2 ^ 64) ∧
      List.Pairwise (· < ·) (allocReqNumbers 0 [5, 3, 2]) :=
  ⟨by decide, request_numbers_strictly_increase [5, 3, 2] (by decide) (by decide)⟩

/-! ## Store set (src/go.mod bundle: treestoreset source; newTreeStoreSet, save) -/

/-- The store set: persistence base path, named store handles (handles are
abstract ids for the external engine instances), and the dirty counter
(`atomic.Int32`; its wrap point is unreachable for these claims, so it is
embedded as `Int`). -/
structure TreeStoreSetM where
  basePath : String
  dbs : List (String × Nat)
  dirty : Int
deriving DecidableEq

/-- `treeStoreFileName`: empty base path means in-memory only, otherwise
`<basePath>.<index>.db`. -/
def treeStoreFileName (tss : TreeStoreSetM) (index : String) : String :=
  if tss.basePath = "" then "" else tss.basePath ++ "." ++ index ++ ".db"

/-- The per-store loop of `save`: write each store through the engine's
`Save` primitive (`saveOp`, the external I/O, returns an error or nothing);
the first failure stops the loop and is returned. -/
def saveStores (saveOp : Nat → String → Option String) (tss : TreeStoreSetM) :
    List (String × Nat) → List String × Option String
  | [] => ([], none)
  | (index, ts) :: rest =>
    let filename := treeStoreFileName tss index
    match saveOp ts filename with
    | some e => ([filename], some e)
    | none =>
      let r := saveStores saveOp tss rest
      (filename :: r.1, r.2)

/-- `save` (store-set source): `dirty.Swap(0)` first; only a positive prior
value triggers the per-store writes.  The result carries the new store-set
state, the list of files written, and the returned error. -/
def save (saveOp : Nat → String → Option String) (tss : TreeStoreSetM) :
    TreeStoreSetM × List String × Option String :=
  let prior := tss.dirty
  let tss' := { tss with dirty := 0 }
  if prior > 0 then
    let r := saveStores saveOp tss' tss'.dbs
    (tss', r.1, r.2)
  else (tss', [], none)

/-- C6: a save on a clean store set (dirty counter 0) swaps the counter
(leaving it 0), performs no per-store engine Save call, leaves the whole
store set unchanged and returns nil; a save on a dirty set resets the
counter to 0, and the writes are exactly the per-store loop on the reset
state. -/
theorem save_clean_is_noop (saveOp : Nat → String → Option String) (tss : TreeStoreSetM) :
    (tss.dirty = 0 → save saveOp tss = (tss, [], none)) ∧
      (0 < tss.dirty →
        (save saveOp tss).1.dirty = 0 ∧
          (save saveOp tss).2 = saveStores saveOp { tss with dirty := 0 } tss.dbs) := by
  constructor
  · intro h
    unfold save
    rw [if_neg (by omega)]
    cases tss with
    | mk basePath dbs dirty => simp only at h; simp [h]
  · intro h
    unfold save
    rw [if_pos (by omega)]
    exact ⟨rfl, rfl⟩

/-- C6 witness: a clean concrete store set is returned untouched with no
writes; a dirty one has its counter reset. -/
theorem save_clean_is_noop_witness :
    save (fun _ _ => none) ⟨"", [("main", 1)], 0⟩ = (⟨"", [("main", 1)], 0⟩, [], none) ∧
      (save (fun _ _ => none) ⟨"base", [("main", 1)], 2⟩).1.dirty = 0 :=
  ⟨(save_clean_is_noop (fun _ _ => none) ⟨"", [("main", 1)], 0⟩).1 rfl,
   ((save_clean_is_noop (fun _ _ => none) ⟨"base", [("main", 1)], 2⟩).2 (by norm_num)).1⟩

/-! ## Startup discovery (src/go.mod bundle: newTreeStoreSet) -/

/-- `strings.Trim(s, cutset)`: removes characters belonging to the cutset
from both ends. -/
def goTrimChar (cutset : List Char) (s : List Char) : List Char :=
  ((s.dropWhile (· ∈ cutset)).reverse.dropWhile (· ∈ cutset)).reverse

/-- The store name `newTreeStoreSet` derives for a directory entry: the
entry must have the base file name as prefix and `.db` as suffix; the
remainder is passed to `strings.Trim(name, ".db")` — the character set
consisting of `.`, `d`, `b` — and an empty result is skipped. -/
def discoveredStoreName (fileBase fname : List Char) : Option (List Char) :=
  if fileBase.isPrefixOf fname ∧ ['.', 'd', 'b'].isSuffixOf fname then
    let name := fname.drop fileBase.length
    let trimmed := goTrimChar ['.', 'd', 'b'] name
    if 0 < trimmed.length then some trimmed else none
  else none

/-- C7: `base.alpha.db` indeed yields store `alpha`, but `base.beta.db`
yields store `eta`, not `beta` — `strings.Trim(name, ".db")` removes the
characters `.`, `d`, `b` from both ends, so the leading `b` of `beta` is
stripped along with the dot.  This contradicts the code's own filename rule
(`treeStoreFileName` writes `<basePath>.<name>.db`), breaking the
save/load round trip for any store name beginning or ending with `.`,
`d`, or `b`. -/
theorem discovery_trims_store_name_bug :
    discoveredStoreName "base".toList "base.alpha.db".toList = some "alpha".toList ∧
      discoveredStoreName "base".toList "base.beta.db".toList = some "eta".toList ∧
      ¬ discoveredStoreName "base".toList "base.beta.db".toList = some "beta".toList := by
  decide

/-! ## Command handlers and the dirty counter (src/cmd-handlers.go) -/

/-- Big-endian serialization of `n` into `w` bytes (`binary.BigEndian.PutUintXX`). -/
def beBytes (w n : Nat) : Bytes :=
  (List.range w).map (fun i => n / 2 ^ (8 * (w - 1 - i)) % 256)

/-- Go integer conversion to an unsigned width: the low `w` bits of the
two's-complement representation. -/
def toUns (w : Nat) (v : Int) : Nat :=
  (v % (2 ^ w : Int)).toNat

/-- The closed set of `any` values the store engine hands back (spec 4.D):
signed/unsigned fixed-width integers, strings, raw bytes (possibly a nil
slice), and the remaining kinds carried by their `%v` text or marshaled
JSON together with their type name. -/
inductive StoreVal
  | bytesV (v : Option Bytes)
  | strV (v : Bytes)
  | intV (v : Int)
  | int8V (v : Int)
  | int16V (v : Int)
  | int32V (v : Int)
  | int64V (v : Int)
  | uintV (v : Nat)
  | uint8V (v : Nat)
  | uint16V (v : Nat)
  | uint32V (v : Nat)
  | uint64V (v : Nat)
  | reprV (text : Bytes) (tyName : String)
  | jsonV (marshaled : Bytes) (tyName : String)

/-- `addValueToResponse` (src/cmd-handlers.go): fixed-width numerics are
serialized big-endian, value-escaped, and tagged with their type name;
strings and bytes are value-escaped (a nil byte slice renders as JSON
null); the remaining kinds carry their text plus type tag. -/
def addValueToResponse : StoreVal → RespMap
  | .bytesV v =>
    [("value", match bytesToEscapedValue v with
      | none => RVal.nullVal
      | some e => RVal.bytesVal e)]
  | .strV v => [("value", RVal.bytesVal (valueEscapeBytes v)), ("type", RVal.strVal "string")]
  | .intV v =>
    [("value", RVal.bytesVal (valueEscapeBytes (beBytes 4 (toUns 32 v)))),
     ("type", RVal.strVal "int")]
  | .int8V v =>
    [("value", RVal.bytesVal (valueEscapeBytes (beBytes 1 (toUns 8 v)))),
     ("type", RVal.strVal "int8")]
  | .int16V v =>
    [("value", RVal.bytesVal (valueEscapeBytes (beBytes 2 (toUns 16 v)))),
     ("type", RVal.strVal "int16")]
  | .int32V v =>
    [("value", RVal.bytesVal (valueEscapeBytes (beBytes 4 (toUns 32 v)))),
     ("type", RVal.strVal "int32")]
  | .int64V v =>
    [("value", RVal.bytesVal (valueEscapeBytes (beBytes 8 (toUns 64 v)))),
     ("type", RVal.strVal "int64")]
  | .uintV v =>
    [("value", RVal.bytesVal (valueEscapeBytes (beBytes 4 (v % 2 ^ 32)))),
     ("type", RVal.strVal "uint")]
  | .uint8V v =>
    [("value", RVal.bytesVal (valueEscapeBytes (beBytes 1 (v % 2 ^ 8)))),
     ("type", RVal.strVal "uint8")]
  | .uint16V v =>
    [("value", RVal.bytesVal (valueEscapeBytes (beBytes 2 (v % 2 ^ 16)))),
     ("type", RVal.strVal "uint16")]
  | .uint32V v =>
    [("value", RVal.bytesVal (valueEscapeBytes (beBytes 4 (v % 2 ^ 32)))),
     ("type", RVal.strVal "uint32")]
  | .uint64V v =>
    [("value", RVal.bytesVal (valueEscapeBytes (beBytes 8 (v % 2 ^ 64)))),
     ("type", RVal.strVal "uint64")]
  | .reprV text ty => [("value", RVal.bytesVal (valueEscapeBytes text)), ("type", RVal.strVal ty)]
  | .jsonV m ty =>
    [("value", RVal.bytesVal (valueEscapeBytes m)), ("type", RVal.strVal ("json-" ++ ty))]

/-- `valueEscape` (src/cmd-handlers.go): escapes a string or byte-slice
value, anything else yields empty text.  (On a typed nil byte slice the Go
code would panic on its string assertion; that corner is rendered as empty
text here.) -/
def valueEscape : Option StoreVal → Bytes
  | some (.strV s) => valueEscapeBytes s
  | some (.bytesV (some b)) => valueEscapeBytes b
  | _ => []

/-- A `GetMatchingKeys` record: the server reads `.Key` for plain listings
and serializes the whole record (`payload`) in `--detailed` mode. -/
structure KeyMatchRec where
  key : String
  payload : RVal

/-- A `GetMatchingKeyValues` record. -/
structure ValueMatchRec where
  key : String
  currentValue : Option StoreVal
  payload : RVal

/-- A `GetLevelKeys` record: segment plus the two flags copied into the
wire `levelKey` struct. -/
structure LevelKeyRec where
  segment : String
  hasValue : Bool
  hasChildren : Bool

/-- A `GetRelationshipValue` result record. -/
structure RelValRec where
  path : String
  currentValue : StoreVal

/-- The engine surface consumed by the read-only handlers, plus the stdlib
operations they use (`strconv.ParseInt`, base64, `json.Unmarshal`) and the
cmdline registry summary used by `help`; all are oracles for external
code. -/
structure EngineOps where
  helpSummary : RVal
  setKey : String → Nat × Bool
  locateKey : String → Nat × Bool
  isKeyIndexed : String → Nat × Bool
  getKeyValue : String → StoreVal × Bool × Bool
  getKeyValueAtTime : String → Int → StoreVal × Bool
  getKeyTtl : String → Int
  getKeyValueTtl : String → Int
  getMetadataAttribute : String → String → Bool × String
  getMetadataAttributes : String → List String
  getMatchingKeys : String → Int → Int → List KeyMatchRec
  getMatchingKeyValues : String → Int → Int → List ValueMatchRec
  getLevelKeys : String → String → Int → Int → Option (List LevelKeyRec)
  getRelationshipValue : String → Int → Bool × Option RelValRec
  keyFromAddress : Int → String × Bool
  keyValueFromAddress : Int → Bool × Bool × String × StoreVal
  exportKey : String → Except String Bytes
  getKeyAsJson : String → Except String Bytes
  getAutoLinkDefinition : String → Option RVal
  getMatchingLeafKeys : String → Int → Int → List String
  parseIntStr : String → Except String Int
  base64Encode : Bytes → String
  jsonUnmarshal : Bytes → Except String RVal
  tokenSegmentToString : String → String
  escapeTokenString : String → String

/-- A handler's effect: the store-set state (whose `dirty` counter is the
only part handlers touch), the response map, and the returned error. -/
abbrev HandlerResult := TreeStoreSetM × RespMap × Option String

/-- `fnSetKey`, shown for contrast as a write handler: a newly created key
bumps the dirty counter (`ctx.cs.tss.dirty.Add(1)`). -/
def fnSetKey (eng : EngineOps) (key : String) (tss : TreeStoreSetM) : HandlerResult :=
  let r := eng.setKey key
  (if r.2 then tss else { tss with dirty := tss.dirty + 1 },
   [("address", RVal.natVal r.1), ("exists", RVal.boolVal r.2)], none)

/-- `fnHelp`: renders the registry summary (the massaging of the external
cmdline summary structure is abstracted into the oracle value). -/
def fnHelp (eng : EngineOps) (tss : TreeStoreSetM) : HandlerResult :=
  (tss, [("help", eng.helpSummary)], none)

/-- `fnLocateKey` (`getk`). -/
def fnLocateKey (eng : EngineOps) (key : String) (tss : TreeStoreSetM) : HandlerResult :=
  let r := eng.locateKey key
  (tss, if r.2 then [("address", RVal.natVal r.1)] else [], none)

/-- `fnIsKeyIndexed` (`indexed`). -/
def fnIsKeyIndexed (eng : EngineOps) (key : String) (tss : TreeStoreSetM) : HandlerResult :=
  let r := eng.isKeyIndexed key
  (tss, if r.2 then [("address", RVal.natVal r.1)] else [], none)

/-- `fnGetKeyValue` (`getv`). -/
def fnGetKeyValue (eng : EngineOps) (key : String) (tss : TreeStoreSetM) : HandlerResult :=
  let r := eng.getKeyValue key
  (tss, ("key_exists", RVal.boolVal r.2.1) :: (if r.2.2 then addValueToResponse r.1 else []),
   none)

/-- `fnGetKeyValueAtTime` (`vat`): a bad `when` argument is a handler
error. -/
def fnGetKeyValueAtTime (eng : EngineOps) (key whenStr : String) (tss : TreeStoreSetM) :
    HandlerResult :=
  (tss,
    match eng.parseIntStr whenStr with
    | .error e => ([], some e)
    | .ok whenNs =>
      let r := eng.getKeyValueAtTime key whenNs
      (if r.2 then addValueToResponse r.1 else [], none))

/-- `fnGetKeyTtl` (`ttlk`): the `ttl` field appears only when positive. -/
def fnGetKeyTtl (eng : EngineOps) (key : String) (tss : TreeStoreSetM) : HandlerResult :=
  let ttl := eng.getKeyTtl key
  (tss, if ttl > 0 then [("ttl", RVal.strVal (toString ttl))] else [], none)

/-- `fnGetKeyValueTtl` (`ttlv`). -/
def fnGetKeyValueTtl (eng : EngineOps) (key : String) (tss : TreeStoreSetM) : HandlerResult :=
  let ttl := eng.getKeyValueTtl key
  (tss, if ttl > 0 then [("ttl", RVal.strVal (toString ttl))] else [], none)

/-- `fnGetMetadataAttribute` (`getmeta`). -/
def fnGetMetadataAttribute (eng : EngineOps) (key attrib : String) (tss : TreeStoreSetM) :
    HandlerResult :=
  let r := eng.getMetadataAttribute key attrib
  (tss, if r.1 then [("value", RVal.strVal r.2)] else [], none)

/-- `fnGetMetadataAttributes` (`lsmeta`). -/
def fnGetMetadataAttributes (eng : EngineOps) (key : String) (tss : TreeStoreSetM) :
    HandlerResult :=
  (tss, [("attributes", RVal.listVal ((eng.getMetadataAttributes key).map RVal.strVal))], none)

/-- `fnListKeys` (`lsk`): `--start`/`--limit` default to 0/10000; plain mode
returns the key paths, `--detailed` the full records. -/
def fnListKeys (eng : EngineOps) (pattern : String) (startOpt limitOpt : Option Int)
    (detailed : Bool) (tss : TreeStoreSetM) : HandlerResult :=
  let startAt := startOpt.getD 0
  let limit := limitOpt.getD 10000
  let keys := eng.getMatchingKeys pattern startAt limit
  (tss,
    if detailed then [("keys", RVal.listVal (keys.map (·.payload)))]
    else [("keypaths", RVal.listVal (keys.map (fun k => RVal.strVal k.key)))],
   none)

/-- Modelled from the spec: the handler for the `keys` command (`fnKeys`) is
registered in src/cmd-handlers.go but its body is not among the source
files.  Per the spec and the registration help text it lists leaf keys
matching the escaped pattern (like `lsk --leaves`), with the pattern prefix
removed from the returned `matches` list; a read-only enumeration. -/
def fnKeys (eng : EngineOps) (pattern : String) (startOpt limitOpt : Option Int)
    (tss : TreeStoreSetM) : HandlerResult :=
  let startAt := startOpt.getD 0
  let limit := limitOpt.getD 10000
  let found := eng.getMatchingLeafKeys pattern startAt limit
  (tss, [("matches", RVal.listVal (found.map RVal.strVal))], none)

/-- `fnGetLevelKeys` (`nodes`): a nil result leaves the response empty;
`--detailed` renders the wire `levelKey` records (segment text, has_value,
has_children), plain mode the escaped segment strings. -/
def fnGetLevelKeys (eng : EngineOps) (key pattern : String) (startOpt limitOpt : Option Int)
    (detailed : Bool) (tss : TreeStoreSetM) : HandlerResult :=
  (tss,
    match eng.getLevelKeys key pattern (startOpt.getD 0) (limitOpt.getD 10000) with
    | none => ([], none)
    | some keys =>
      (if detailed then
        [("keys", RVal.listVal (keys.map (fun k =>
          RVal.listVal [RVal.strVal (eng.tokenSegmentToString k.segment),
            RVal.boolVal k.hasValue, RVal.boolVal k.hasChildren])))]
      else
        [("segments", RVal.listVal (keys.map (fun k =>
          RVal.strVal (eng.escapeTokenString k.segment))))], none))

/-- `fnListKeyValues` (`lsv`): `--detailed` serializes the records with
their current values escaped in place; plain mode builds the key-to-escaped
value map. -/
def fnListKeyValues (eng : EngineOps) (pattern : String) (startOpt limitOpt : Option Int)
    (detailed : Bool) (tss : TreeStoreSetM) : HandlerResult :=
  let vals := eng.getMatchingKeyValues pattern (startOpt.getD 0) (limitOpt.getD 10000)
  (tss,
    if detailed then [("values", RVal.listVal (vals.map (·.payload)))]
    else [("key_values", RVal.pairsVal (vals.map (fun v => (v.key, valueEscape v.currentValue))))],
   none)

/-- `fnGetRelationshipValue` (`follow`). -/
def fnGetRelationshipValue (eng : EngineOps) (key : String) (index : Int)
    (tss : TreeStoreSetM) : HandlerResult :=
  let r := eng.getRelationshipValue key index
  (tss,
    ("has_link", RVal.boolVal r.1) ::
      (match r.2 with
       | some rv => ("key", RVal.strVal rv.path) :: addValueToResponse rv.currentValue
       | none => []),
   none)

/-- `fnKeyFromAddress` (`addrk`): a bad address argument is a handler
error. -/
def fnKeyFromAddress (eng : EngineOps) (addressStr : String) (tss : TreeStoreSetM) :
    HandlerResult :=
  (tss,
    match eng.parseIntStr addressStr with
    | .error e => ([], some e)
    | .ok address =>
      let r := eng.keyFromAddress address
      (if r.2 then [("key", RVal.strVal r.1)] else [], none))

/-- `fnKeyValueFromAddress` (`addrv`). -/
def fnKeyValueFromAddress (eng : EngineOps) (addressStr : String) (tss : TreeStoreSetM) :
    HandlerResult :=
  (tss,
    match eng.parseIntStr addressStr with
    | .error e => ([], some e)
    | .ok address =>
      let r := eng.keyValueFromAddress address
      (if r.1 then
        ("key", RVal.strVal r.2.2.1) :: (if r.2.1 then addValueToResponse r.2.2.2 else [])
      else [], none))

/-- `fnExport` (`export`): engine export errors and JSON unmarshal errors
surface as handler errors; `--base64` wraps the document. -/
def fnExport (eng : EngineOps) (key : String) (b64 : Bool) (tss : TreeStoreSetM) :
    HandlerResult :=
  (tss,
    match eng.exportKey key with
    | .error e => ([], some e)
    | .ok jsonData =>
      if b64 then ([("base64", RVal.strVal (eng.base64Encode jsonData))], none)
      else
        match eng.jsonUnmarshal jsonData with
        | .error e => ([], some e)
        | .ok payload => ([("data", payload)], none))

/-- `fnGetKeyJson` (`getjson`): same shape as `fnExport` over
`GetKeyAsJson`. -/
def fnGetKeyJson (eng : EngineOps) (key : String) (b64 : Bool) (tss : TreeStoreSetM) :
    HandlerResult :=
  (tss,
    match eng.getKeyAsJson key with
    | .error e => ([], some e)
    | .ok jsonData =>
      if b64 then ([("base64", RVal.strVal (eng.base64Encode jsonData))], none)
      else
        match eng.jsonUnmarshal jsonData with
        | .error e => ([], some e)
        | .ok payload => ([("data", payload)], none))

/-- Modelled from the spec: the handler for `getautolink`
(`fnGetAutoLinkDefinition`) is registered in src/cmd-handlers.go but its
body is not among the source files.  Per the spec it retrieves the
auto-link definition stored in the data key, if one exists; a read-only
query. -/
def fnGetAutoLinkDefinition (eng : EngineOps) (datakey : String) (tss : TreeStoreSetM) :
    HandlerResult :=
  (tss,
    match eng.getAutoLinkDefinition datakey with
    | some d => ([("autolink", d)], none)
    | none => ([], none))

/-- C10: every read-only query command's handler returns the store-set
state with its dirty counter untouched (none of them contains a
`dirty.Add`), so these commands never make the periodic saver write. -/
theorem read_only_commands_leave_dirty_unchanged
    (eng : EngineOps) (tss : TreeStoreSetM) (key attrib whenStr pattern addressStr : String)
    (index : Int) (startOpt limitOpt : Option Int) (detailed b64 : Bool) :
    (fnHelp eng tss).1.dirty = tss.dirty ∧
      (fnLocateKey eng key tss).1.dirty = tss.dirty ∧
      (fnGetKeyValue eng key tss).1.dirty = tss.dirty ∧
      (fnGetKeyValueAtTime eng key whenStr tss).1.dirty = tss.dirty ∧
      (fnGetKeyTtl eng key tss).1.dirty = tss.dirty ∧
      (fnGetKeyValueTtl eng key tss).1.dirty = tss.dirty ∧
      (fnGetMetadataAttribute eng key attrib tss).1.dirty = tss.dirty ∧
      (fnGetMetadataAttributes eng key tss).1.dirty = tss.dirty ∧
      (fnIsKeyIndexed eng key tss).1.dirty = tss.dirty ∧
      (fnListKeys eng pattern startOpt limitOpt detailed tss).1.dirty = tss.dirty ∧
      (fnKeys eng pattern startOpt limitOpt tss).1.dirty = tss.dirty ∧
      (fnGetLevelKeys eng key pattern startOpt limitOpt detailed tss).1.dirty = tss.dirty ∧
      (fnListKeyValues eng pattern startOpt limitOpt detailed tss).1.dirty = tss.dirty ∧
      (fnGetRelationshipValue eng key index tss).1.dirty = tss.dirty ∧
      (fnKeyFromAddress eng addressStr tss).1.dirty = tss.dirty ∧
      (fnKeyValueFromAddress eng addressStr tss).1.dirty = tss.dirty ∧
      (fnExport eng key b64 tss).1.dirty = tss.dirty ∧
      (fnGetKeyJson eng key b64 tss).1.dirty = tss.dirty ∧
      (fnGetAutoLinkDefinition eng key tss).1.dirty = tss.dirty :=
  ⟨rfl, rfl, rfl, rfl, rfl, rfl, rfl, rfl, rfl, rfl, rfl, rfl, rfl, rfl, rfl, rfl, rfl, rfl, rfl⟩

/-! ## Capture/release/unblock state machine (src/clientState.go)

The client's `blocked` word takes the Go constant values
`CS_UNCAPTURED = 0`, `CS_DRAINING = 1`, `CS_CAPTURED = 2`, `CS_CHECKING = 3`.
One command goroutine capture/release cycle (a client processes one command
at a time) interleaves with any number of `unblock` goroutines.  Each
`unblock` loop iteration decomposes into its atomic operations:

* latch: `locked := atomic.SwapInt32(&blocked, CS_CHECKING)`;
* the `unblockPending` compare-and-swap when `locked == CS_CAPTURED`;
* the buffered (capacity-1) channel send after a winning CAS;
* restore: `atomic.SwapInt32(&blocked, locked)`, then return when `locked`
  was UNCAPTURED or CAPTURED, else retry.

`sends` is a ghost counter of channel sends, reset whenever `capture()`
succeeds, so `sends ≤ 1` in every reachable state says: at most one
unblock item is delivered into `unblockCh` per capture interval. -/

/-- Program counter of one `unblock` goroutine. -/
inductive UnbPc
  | ready
  | casReady
  | sendReady
  | restore (locked : Nat)
  | done
deriving DecidableEq

/-- Program counter of the capturing command goroutine, following
`capture()` and the stages of `releaseCapture()`: the CAPTURED→DRAINING
CAS, the channel drain loop, the `unblockPending` store, and the
DRAINING→UNCAPTURED CAS. -/
inductive CapPc
  | idle
  | captured
  | draining
  | clearing
  | unlocking
deriving DecidableEq

/-- The shared client state plus the goroutine program counters and the
ghost send counter. -/
structure ClientFsm where
  blocked : Nat
  unblockPending : Bool
  chanCount : Nat
  sends : Nat
  cpc : CapPc
  threads : Multiset UnbPc
deriving DecidableEq

/-- Initial state: uncaptured, nothing pending, empty channel, `n` callers
of `unblock` ready to run. -/
def initClientFsm (n : Nat) : ClientFsm :=
  { blocked := 0, unblockPending := false, chanCount := 0, sends := 0,
    cpc := .idle, threads := Multiset.replicate n .ready }

/-- One atomic step of the capture/release/unblock machine. -/
inductive FsmStep : ClientFsm → ClientFsm → Prop
  /-- `capture()`: the UNCAPTURED→CAPTURED CAS succeeds; a new capture
  interval begins (ghost counter reset). -/
  | capture {s : ClientFsm} :
      s.cpc = .idle → s.blocked = 0 →
      FsmStep s { s with blocked := 2, cpc := .captured, sends := 0 }
  /-- `releaseCapture()` first CAS: CAPTURED→DRAINING. -/
  | releaseStart {s : ClientFsm} :
      s.cpc = .captured → s.blocked = 2 →
      FsmStep s { s with blocked := 1, cpc := .draining }
  /-- One non-blocking receive of the drain loop. -/
  | drainRecv {s : ClientFsm} :
      s.cpc = .draining → 0 < s.chanCount →
      FsmStep s { s with chanCount := s.chanCount - 1 }
  /-- The drain loop's `default` case: channel empty, move on. -/
  | drainDone {s : ClientFsm} :
      s.cpc = .draining → s.chanCount = 0 →
      FsmStep s { s with cpc := .clearing }
  /-- `atomic.StoreInt32(&unblockPending, 0)`. -/
  | clearPending {s : ClientFsm} :
      s.cpc = .clearing →
      FsmStep s { s with unblockPending := false, cpc := .unlocking }
  /-- `releaseCapture()` second CAS: DRAINING→UNCAPTURED. -/
  | releaseDone {s : ClientFsm} :
      s.cpc = .unlocking → s.blocked = 1 →
      FsmStep s { s with blocked := 0, cpc := .idle }
  /-- An `unblock` goroutine latches: swap `blocked` to CHECKING, keeping
  the prior value; only a latched CAPTURED proceeds to the pending CAS,
  any other value goes straight to the restore. -/
  | latch {s : ClientFsm} (t : Multiset UnbPc) :
      s.threads = .ready ::ₘ t →
      FsmStep s { s with
        blocked := 3,
        threads := (if s.blocked = 2 then UnbPc.casReady else UnbPc.restore s.blocked) ::ₘ t }
  /-- The `unblockPending` CAS 0→1 succeeds: this goroutine will send. -/
  | casWin {s : ClientFsm} (t : Multiset UnbPc) :
      s.threads = .casReady ::ₘ t → s.unblockPending = false →
      FsmStep s { s with unblockPending := true, threads := UnbPc.sendReady ::ₘ t }
  /-- The `unblockPending` CAS fails: skip the send. -/
  | casLose {s : ClientFsm} (t : Multiset UnbPc) :
      s.threads = .casReady ::ₘ t → s.unblockPending = true →
      FsmStep s { s with threads := UnbPc.restore 2 ::ₘ t }
  /-- The buffered channel send (capacity 1: only possible into an empty
  buffer; otherwise the sender waits). -/
  | send {s : ClientFsm} (t : Multiset UnbPc) :
      s.threads = .sendReady ::ₘ t → s.chanCount = 0 →
      FsmStep s { s with
        chanCount := 1,
        sends := s.sends + 1,
        threads := UnbPc.restore 2 ::ₘ t }
  /-- Restore: swap the latched value back; return when it was UNCAPTURED
  or CAPTURED, retry otherwise. -/
  | restoreStep {s : ClientFsm} (t : Multiset UnbPc) (l : Nat) :
      s.threads = .restore l ::ₘ t →
      FsmStep s { s with
        blocked := l,
        threads := (if l = 0 ∨ l = 2 then UnbPc.done else UnbPc.ready) ::ₘ t }
  /-- The blocked command's `select` receives the unblock notice. -/
  | recv {s : ClientFsm} :
      s.cpc = .captured → 0 < s.chanCount →
      FsmStep s { s with chanCount := s.chanCount - 1 }

/-- A goroutine holding a latched CAPTURED value (it latched while
`blocked = 2` and has not restored yet). -/
def latchHolder : UnbPc → Bool
  | .casReady => true
  | .sendReady => true
  | .restore l => l == 2
  | _ => false

def latchCount (s : ClientFsm) : Nat :=
  Multiset.countP (fun p => latchHolder p = true) s.threads

def sendReadyCount (s : ClientFsm) : Nat :=
  Multiset.countP (fun p => p = UnbPc.sendReady) s.threads

theorem sendReadyCount_le_latchCount (s : ClientFsm) : sendReadyCount s ≤ latchCount s := by
  unfold sendReadyCount latchCount
  induction s.threads using Multiset.induction_on with
  | empty => simp
  | cons a t ih =>
    rw [Multiset.countP_cons, Multiset.countP_cons]
    have : (if a = UnbPc.sendReady then 1 else 0) ≤ if latchHolder a = true then 1 else 0 := by
      by_cases h : a = UnbPc.sendReady
      · subst h; simp [latchHolder]
      · simp [h]
    omega

/-- The inductive invariant of the capture/release/unblock machine. -/
structure ClientInv (s : ClientFsm) : Prop where
  p0 : s.sends ≤ 1
  p1 : s.cpc ≠ .captured → latchCount s = 0 ∧ s.blocked ≠ 2
  p2 : s.blocked = 2 → latchCount s = 0
  p3 : latchCount s ≤ 1
  p6 : 1 ≤ sendReadyCount s → s.unblockPending = true
  p7 : s.cpc = .unlocking ∨ s.cpc = .idle → s.unblockPending = false
  p8 : s.unblockPending = true → s.sends + sendReadyCount s ≤ 1
  p9 : s.unblockPending = false →
    sendReadyCount s = 0 ∧ (s.cpc = .captured → s.sends = 0)

theorem countP_replicate_ready_zero (p : UnbPc → Prop) [DecidablePred p]
    (hp : ¬ p UnbPc.ready) : ∀ n : Nat,
    Multiset.countP p (Multiset.replicate n UnbPc.ready) = 0 := by
  intro n
  induction n with
  | zero => simp
  | succ m ih =>
    rw [Multiset.replicate_succ, Multiset.countP_cons, ih, if_neg hp]

theorem clientInv_init (n : Nat) : ClientInv (initClientFsm n) := by
  have hl : latchCount (initClientFsm n) = 0 :=
    countP_replicate_ready_zero _ (by simp [latchHolder]) n
  have hs : sendReadyCount (initClientFsm n) = 0 :=
    countP_replicate_ready_zero _ (by simp) n
  exact {
    p0 := by simp [initClientFsm]
    p1 := fun _ => ⟨hl, by simp [initClientFsm]⟩
    p2 := fun _ => hl
    p3 := by omega
    p6 := by omega
    p7 := fun _ => rfl
    p8 := by simp [initClientFsm]
    p9 := fun _ => ⟨hs, fun _ => rfl⟩ }

theorem latchCount_cons {s : ClientFsm} {a : UnbPc} {t : Multiset UnbPc}
    (h : s.threads = a ::ₘ t) :
    latchCount s = Multiset.countP (fun p => latchHolder p = true) t
      + (if latchHolder a = true then 1 else 0) := by
  unfold latchCount
  rw [h, Multiset.countP_cons]

theorem sendReadyCount_cons {s : ClientFsm} {a : UnbPc} {t : Multiset UnbPc}
    (h : s.threads = a ::ₘ t) :
    sendReadyCount s = Multiset.countP (fun p => p = UnbPc.sendReady) t
      + (if a = UnbPc.sendReady then 1 else 0) := by
  unfold sendReadyCount
  rw [h, Multiset.countP_cons]

theorem clientInv_step {s s' : ClientFsm} (inv : ClientInv s) (st : FsmStep s s') :
    ClientInv s' := by
  cases st with
  | capture h1 h2 =>
    obtain ⟨hl, _⟩ := inv.p1 (by rw [h1]; decide)
    have hpend : s.unblockPending = false := inv.p7 (Or.inr h1)
    have hsc : sendReadyCount s = 0 := (inv.p9 hpend).1
    refine ⟨by simp, fun hc => absurd rfl hc, fun _ => hl, ?_, ?_, ?_, ?_, fun _ => ⟨hsc, fun _ => rfl⟩⟩
    · exact inv.p3
    · intro h
      have h' : 1 ≤ sendReadyCount s := h
      omega
    · intro h
      rcases h with h | h <;> simp at h
    · intro h
      have h' : s.unblockPending = true := h
      rw [hpend] at h'
      simp at h'
  | releaseStart h1 h2 =>
    have hl : latchCount s = 0 := inv.p2 h2
    refine ⟨inv.p0, fun _ => ⟨hl, by simp⟩, fun _ => hl, inv.p3, inv.p6, ?_, inv.p8, ?_⟩
    · intro h
      rcases h with h | h <;> simp at h
    · intro hp
      exact ⟨(inv.p9 hp).1, fun hc => by simp at hc⟩
  | drainRecv h1 h2 =>
    exact ⟨inv.p0, inv.p1, inv.p2, inv.p3, inv.p6, inv.p7, inv.p8, inv.p9⟩
  | drainDone h1 h2 =>
    refine ⟨inv.p0, fun _ => inv.p1 (by rw [h1]; decide), inv.p2, inv.p3, inv.p6, ?_, inv.p8, ?_⟩
    · intro h
      rcases h with h | h <;> simp at h
    · intro hp
      exact ⟨(inv.p9 hp).1, fun hc => by simp at hc⟩
  | clearPending h1 =>
    have hl : latchCount s = 0 := (inv.p1 (by rw [h1]; decide)).1
    have hsc : sendReadyCount s = 0 := by
      have := sendReadyCount_le_latchCount s
      omega
    refine ⟨inv.p0, fun _ => inv.p1 (by rw [h1]; decide), inv.p2, inv.p3, ?_, fun _ => rfl, ?_, ?_⟩
    · intro h
      have h' : 1 ≤ sendReadyCount s := h
      omega
    · intro h
      simp at h
    · intro _
      exact ⟨hsc, fun hc => by simp at hc⟩
  | releaseDone h1 h2 =>
    have hl : latchCount s = 0 := (inv.p1 (by rw [h1]; decide)).1
    have hpend : s.unblockPending = false := inv.p7 (Or.inl h1)
    refine ⟨inv.p0, fun _ => ⟨hl, by simp⟩, fun h => by simp at h, inv.p3, inv.p6,
      fun _ => hpend, inv.p8, ?_⟩
    · intro hp
      exact ⟨(inv.p9 hp).1, fun hc => by simp at hc⟩
  | recv h1 h2 =>
    exact ⟨inv.p0, inv.p1, inv.p2, inv.p3, inv.p6, inv.p7, inv.p8, inv.p9⟩
  | latch t hth =>
    by_cases hb : s.blocked = 2
    · have hl : latchCount s = 0 := inv.p2 hb
      have ht0 : Multiset.countP (fun p => latchHolder p = true) t = 0 := by
        rw [latchCount_cons hth] at hl
        simp [latchHolder] at hl
        exact hl
      have hcpc : s.cpc = CapPc.captured := by
        by_contra hc
        exact absurd hb (inv.p1 hc).2
      have hLC' : latchCount
          { s with
            blocked := 3,
            threads := (if s.blocked = 2 then UnbPc.casReady else UnbPc.restore s.blocked) ::ₘ t }
          = 1 := by
        rw [latchCount_cons rfl, ht0, if_pos hb]
        simp [latchHolder]
      have hSCs : sendReadyCount s = Multiset.countP (fun p => p = UnbPc.sendReady) t := by
        rw [sendReadyCount_cons hth]
        simp
      have hSC' : sendReadyCount
          { s with
            blocked := 3,
            threads := (if s.blocked = 2 then UnbPc.casReady else UnbPc.restore s.blocked) ::ₘ t }
          = Multiset.countP (fun p => p = UnbPc.sendReady) t := by
        rw [sendReadyCount_cons rfl, if_pos hb]
        simp
      refine ⟨inv.p0, fun hc => absurd hcpc hc, ?_, ?_, ?_, inv.p7, ?_, ?_⟩
      · intro h
        simp at h
      · rw [hLC']
      · intro h
        rw [hSC'] at h
        apply inv.p6
        omega
      · intro hp
        have := inv.p8 hp
        rw [hSC']
        show s.sends + _ ≤ 1
        omega
      · intro hp
        obtain ⟨ha, hb2⟩ := inv.p9 hp
        exact ⟨by rw [hSC']; omega, fun hc => hb2 hc⟩
    · have hLCs : latchCount s = Multiset.countP (fun p => latchHolder p = true) t := by
        rw [latchCount_cons hth]
        simp [latchHolder]
      have hLC' : latchCount
          { s with
            blocked := 3,
            threads := (if s.blocked = 2 then UnbPc.casReady else UnbPc.restore s.blocked) ::ₘ t }
          = latchCount s := by
        rw [latchCount_cons rfl, if_neg hb, hLCs]
        simp [latchHolder, hb]
      have hSC' : sendReadyCount
          { s with
            blocked := 3,
            threads := (if s.blocked = 2 then UnbPc.casReady else UnbPc.restore s.blocked) ::ₘ t }
          = sendReadyCount s := by
        rw [sendReadyCount_cons rfl, sendReadyCount_cons hth, if_neg hb]
        simp
      refine ⟨inv.p0, ?_, ?_, ?_, ?_, inv.p7, ?_, ?_⟩
      · intro hc
        exact ⟨by rw [hLC']; exact (inv.p1 hc).1, by simp⟩
      · intro h
        simp at h
      · rw [hLC']
        exact inv.p3
      · intro h
        rw [hSC'] at h
        exact inv.p6 h
      · intro hp
        have := inv.p8 hp
        rw [hSC']
        show s.sends + _ ≤ 1
        omega
      · intro hp
        obtain ⟨ha, hb2⟩ := inv.p9 hp
        exact ⟨by rw [hSC']; exact ha, fun hc => hb2 hc⟩
  | casWin t hth hp =>
    have hLCs : latchCount s = Multiset.countP (fun p => latchHolder p = true) t + 1 := by
      rw [latchCount_cons hth]
      simp [latchHolder]
    have hcpc : s.cpc = CapPc.captured := by
      by_contra hc
      have h0 := (inv.p1 hc).1
      omega
    have hsends0 : s.sends = 0 := (inv.p9 hp).2 hcpc
    have hSCs0 : sendReadyCount s = 0 := (inv.p9 hp).1
    have hSCt0 : Multiset.countP (fun p => p = UnbPc.sendReady) t = 0 := by
      rw [sendReadyCount_cons hth] at hSCs0
      simp at hSCs0
      exact hSCs0
    have hLC' : latchCount { s with unblockPending := true, threads := UnbPc.sendReady ::ₘ t }
        = latchCount s := by
      rw [latchCount_cons rfl, hLCs]
      simp [latchHolder]
    have hSC' : sendReadyCount { s with unblockPending := true, threads := UnbPc.sendReady ::ₘ t }
        = 1 := by
      rw [sendReadyCount_cons rfl, hSCt0]
      simp
    refine ⟨inv.p0, fun hc => absurd hcpc hc, ?_, ?_, fun _ => rfl, ?_, ?_, ?_⟩
    · intro h2
      have := inv.p2 h2
      omega
    · rw [hLC']
      exact inv.p3
    · intro h
      rcases h with h | h
      · have : s.cpc = CapPc.unlocking := h
        rw [hcpc] at this
        simp at this
      · have : s.cpc = CapPc.idle := h
        rw [hcpc] at this
        simp at this
    · intro _
      rw [hSC', hsends0]
    · intro hpp
      simp at hpp
  | casLose t hth hp =>
    have hLCs : latchCount s = Multiset.countP (fun p => latchHolder p = true) t + 1 := by
      rw [latchCount_cons hth]
      simp [latchHolder]
    have hcpc : s.cpc = CapPc.captured := by
      by_contra hc
      have h0 := (inv.p1 hc).1
      omega
    have hLC' : latchCount { s with threads := UnbPc.restore 2 ::ₘ t } = latchCount s := by
      rw [latchCount_cons rfl, hLCs]
      simp [latchHolder]
    have hSC' : sendReadyCount { s with threads := UnbPc.restore 2 ::ₘ t }
        = sendReadyCount s := by
      rw [sendReadyCount_cons rfl, sendReadyCount_cons hth]
      simp
    refine ⟨inv.p0, fun hc => absurd hcpc hc, ?_, ?_, ?_, inv.p7, ?_, ?_⟩
    · intro h2
      have := inv.p2 h2
      omega
    · rw [hLC']
      exact inv.p3
    · intro h
      rw [hSC'] at h
      exact inv.p6 h
    · intro hpp
      have := inv.p8 hpp
      rw [hSC']
      show s.sends + _ ≤ 1
      omega
    · intro hpp
      have : s.unblockPending = false := hpp
      rw [hp] at this
      simp at this
  | send t hth hchan =>
    have hSCs : sendReadyCount s = Multiset.countP (fun p => p = UnbPc.sendReady) t + 1 := by
      rw [sendReadyCount_cons hth]
      simp
    have hpend : s.unblockPending = true := inv.p6 (by omega)
    have hbound := inv.p8 hpend
    have hsends0 : s.sends = 0 := by omega
    have hSCt0 : Multiset.countP (fun p => p = UnbPc.sendReady) t = 0 := by omega
    have hLCs : latchCount s = Multiset.countP (fun p => latchHolder p = true) t + 1 := by
      rw [latchCount_cons hth]
      simp [latchHolder]
    have hcpc : s.cpc = CapPc.captured := by
      by_contra hc
      have h0 := (inv.p1 hc).1
      omega
    have hLC' : latchCount
        { s with chanCount := 1, sends := s.sends + 1, threads := UnbPc.restore 2 ::ₘ t }
        = latchCount s := by
      rw [latchCount_cons rfl, hLCs]
      simp [latchHolder]
    have hSC' : sendReadyCount
        { s with chanCount := 1, sends := s.sends + 1, threads := UnbPc.restore 2 ::ₘ t }
        = 0 := by
      rw [sendReadyCount_cons rfl, hSCt0]
      simp
    refine ⟨?_, fun hc => absurd hcpc hc, ?_, ?_, fun _ => hpend, ?_, ?_, ?_⟩
    · show s.sends + 1 ≤ 1
      omega
    · intro h2
      have := inv.p2 h2
      omega
    · rw [hLC']
      exact inv.p3
    · intro h
      rcases h with h | h
      · have : s.cpc = CapPc.unlocking := h
        rw [hcpc] at this
        simp at this
      · have : s.cpc = CapPc.idle := h
        rw [hcpc] at this
        simp at this
    · intro _
      rw [hSC']
      show s.sends + 1 + 0 ≤ 1
      omega
    · intro hpp
      have : s.unblockPending = false := hpp
      rw [hpend] at this
      simp at this
  | restoreStep t l hth =>
    by_cases hl2 : l = 2
    · subst hl2
      have hLCs : latchCount s = Multiset.countP (fun p => latchHolder p = true) t + 1 := by
        rw [latchCount_cons hth]
        simp [latchHolder]
      have hcpc : s.cpc = CapPc.captured := by
        by_contra hc
        have h0 := (inv.p1 hc).1
        omega
      have hLt0 : Multiset.countP (fun p => latchHolder p = true) t = 0 := by
        have := inv.p3
        omega
      have hLC' : latchCount
          { s with
            blocked := 2,
            threads := (if 2 = 0 ∨ 2 = 2 then UnbPc.done else UnbPc.ready) ::ₘ t } = 0 := by
        rw [latchCount_cons rfl, hLt0]
        simp [latchHolder]
      have hSC' : sendReadyCount
          { s with
            blocked := 2,
            threads := (if 2 = 0 ∨ 2 = 2 then UnbPc.done else UnbPc.ready) ::ₘ t }
          = sendReadyCount s := by
        rw [sendReadyCount_cons rfl, sendReadyCount_cons hth]
        simp
      refine ⟨inv.p0, fun hc => absurd hcpc hc, fun _ => hLC', ?_, ?_, inv.p7, ?_, ?_⟩
      · rw [hLC']
        omega
      · intro h
        rw [hSC'] at h
        exact inv.p6 h
      · intro hpp
        have := inv.p8 hpp
        rw [hSC']
        show s.sends + _ ≤ 1
        omega
      · intro hpp
        obtain ⟨ha, hb2⟩ := inv.p9 hpp
        exact ⟨by rw [hSC']; exact ha, fun hc => hb2 hc⟩
    · have hLCs : latchCount s = Multiset.countP (fun p => latchHolder p = true) t := by
        rw [latchCount_cons hth]
        simp [latchHolder, hl2]
      have hLC' : latchCount
          { s with
            blocked := l,
            threads := (if l = 0 ∨ l = 2 then UnbPc.done else UnbPc.ready) ::ₘ t }
          = latchCount s := by
        rw [latchCount_cons rfl, hLCs]
        by_cases h0 : l = 0 ∨ l = 2
        · rw [if_pos h0]
          simp [latchHolder]
        · rw [if_neg h0]
          simp [latchHolder]
      have hSC' : sendReadyCount
          { s with
            blocked := l,
            threads := (if l = 0 ∨ l = 2 then UnbPc.done else UnbPc.ready) ::ₘ t }
          = sendReadyCount s := by
        rw [sendReadyCount_cons rfl, sendReadyCount_cons hth]
        by_cases h0 : l = 0 ∨ l = 2
        · rw [if_pos h0]
          simp
        · rw [if_neg h0]
          simp
      refine ⟨inv.p0, ?_, ?_, ?_, ?_, inv.p7, ?_, ?_⟩
      · intro hc
        exact ⟨by rw [hLC']; exact (inv.p1 hc).1, fun he => hl2 he⟩
      · intro h2
        exact absurd h2 hl2
      · rw [hLC']
        exact inv.p3
      · intro h
        rw [hSC'] at h
        exact inv.p6 h
      · intro hpp
        have := inv.p8 hpp
        rw [hSC']
        show s.sends + _ ≤ 1
        omega
      · intro hpp
        obtain ⟨ha, hb2⟩ := inv.p9 hpp
        exact ⟨by rw [hSC']; exact ha, fun hc => hb2 hc⟩

theorem clientInv_reachable {n : Nat} {s : ClientFsm}
    (h : Relation.ReflTransGen FsmStep (initClientFsm n) s) : ClientInv s := by
  induction h with
  | refl => exact clientInv_init n
  | tail _ hstep ih => exact clientInv_step ih hstep

/-- C2: over every interleaving of the capture/release/unblock machine with
any number `n` of concurrent `unblock` callers, every reachable state has
sent at most one unblock item into `unblockCh` since the current capture
began (`sends` is reset exactly when `capture()` succeeds): the
`unblockPending` single-shot admits one winning CAS per capture, the
CHECKING latch keeps `releaseCapture` from running while a caller that
latched CAPTURED is still between its CAS and its send, and the pending
flag is cleared only after the DRAINING drain, before a new capture can
start. -/
theorem at_most_one_unblock_per_capture (n : Nat) (s : ClientFsm)
    (h : Relation.ReflTransGen FsmStep (initClientFsm n) s) : s.sends ≤ 1 :=
  (clientInv_reachable h).p0

/-- C2 witness: the state reached from two ready unblock callers by one
successful `capture()` step. -/
theorem at_most_one_unblock_per_capture_witness :
    ({ blocked := 2, unblockPending := false, chanCount := 0, sends := 0,
       cpc := .captured, threads := Multiset.replicate 2 .ready } : ClientFsm).sends ≤ 1 :=
  at_most_one_unblock_per_capture 2 _
    (Relation.ReflTransGen.single (FsmStep.capture rfl rfl))
